import Mathlib

/-!
# Verification of the Zefix purpose-scraper pipeline (`src/scrape_zefix.py`)

This file gives a shallow embedding of the core pipeline of
`scrape_zefix.py` — identifier collection, dict flattening, progress
tracking, field ordering, fetching, and the per-identifier write path —
and proves or refutes the specification claims about it.

JSON values are modelled by the inductive type `Val` (floats are not
needed by any claim and are omitted); Python `dict`s are modelled as
insertion-ordered association lists built by `pyDict`/`pyInsert`, which
mirror CPython semantics: inserting an existing key keeps its position
and overwrites its value, inserting a new key appends it.  Python
truthiness is `pyTruthy`, `str.strip()` is `pyStrip` (they agree on
ASCII whitespace), and `sorted()` on strings is `pySorted`, an insertion
sort by the code-point order `strLe` (Python's sort is stable, but all
sorted lists here have no duplicates, so any sort by that order agrees
with it).
-/

namespace Zefix

/-- A JSON value as produced by `response.json()`: string, integer,
boolean, null, object (insertion-ordered, duplicate-free mapping), or
array.  Floats play no role in any claim and are omitted. -/
inductive Val : Type where
  | vStr (s : String)
  | vInt (n : Int)
  | vBool (b : Bool)
  | vNull
  | vObj (m : List (String × Val))
  | vArr (xs : List Val)

/-- `isinstance(v, dict)` is false and `isinstance(v, list)` is false:
the value is a scalar (string, number, boolean or null). -/
def Val.isScalar : Val → Bool
  | .vObj _ => false
  | .vArr _ => false
  | _ => true

/-- Python truthiness of a value (`bool(v)`): empty string, zero, `False`,
`None`, empty dict and empty list are falsy, everything else truthy. -/
def pyTruthy : Val → Bool
  | .vStr s => s != ""
  | .vInt n => n != 0
  | .vBool b => b
  | .vNull => false
  | .vObj m => !m.isEmpty
  | .vArr xs => !xs.isEmpty

/-- Insert a key into a Python dict: an existing key keeps its position
and gets the new value; a new key is appended at the end. -/
def pyInsert (m : List (String × Val)) (k : String) (v : Val) :
    List (String × Val) :=
  match m with
  | [] => [(k, v)]
  | (k', v') :: rest =>
    if k' = k then (k', v) :: rest else (k', v') :: pyInsert rest k v

/-- `dict(items)`: build a dict from a list of key/value pairs, later
pairs overwriting earlier ones in place. -/
def pyDict (items : List (String × Val)) : List (String × Val) :=
  items.foldl (fun m kv => pyInsert m kv.1 kv.2) []

/-- The key built in `flatten_dict`:
`new_key = f"{parent_key}{sep}{k}" if parent_key else k` with
`sep = '_'`. -/
def mkKey (parentKey k : String) : String :=
  if parentKey = "" then k else parentKey ++ "_" ++ k

mutual

/-- The `items` list accumulated by `flatten_dict(d, parent_key)`:
a dict value recurses (through a full inner `flatten_dict`, i.e. its
items are deduplicated by `dict()` before being spliced in), a list
value contributes one indexed entry per element (recursing on dict
elements), and any other value contributes `(new_key, v)`. -/
def flattenItems (d : List (String × Val)) (parentKey : String) :
    List (String × Val) :=
  match d with
  | [] => []
  | (k, v) :: rest =>
    let newKey := mkKey parentKey k
    (match v with
     | .vObj m => pyDict (flattenItems m newKey)
     | .vArr xs => flattenListItems xs newKey 0
     | v => [(newKey, v)])
    ++ flattenItems rest parentKey

/-- The entries contributed by a list value in `flatten_dict`:
`for i, item in enumerate(v)`, a dict element is flattened under
`f"{new_key}_{i}"`, any other element becomes `(f"{new_key}_{i}", item)`. -/
def flattenListItems (xs : List Val) (newKey : String) (i : Nat) :
    List (String × Val) :=
  match xs with
  | [] => []
  | item :: rest =>
    (match item with
     | .vObj m => pyDict (flattenItems m (newKey ++ "_" ++ toString i))
     | item => [(newKey ++ "_" ++ toString i, item)])
    ++ flattenListItems rest newKey (i + 1)

end

/-- `flatten_dict(d, parent_key='', sep='_')` from `scrape_zefix.py`
(lines 111–127): flatten a nested dict into a single-level dict with
underscore-joined keys and indexed sequence entries. -/
def flatten_dict (d : List (String × Val)) (parentKey : String) :
    List (String × Val) :=
  pyDict (flattenItems d parentKey)

/-! ## CSV rows and Python set/sort primitives

A parsed CSV row, as `csv.DictReader` presents it, is an
insertion-ordered mapping from header field to cell string; we model it
as an association list `List (String × String)` (duplicate-free keys,
since it is a Python dict).  Python `set`s whose final use is either
membership or `sorted()` are modelled as insertion-ordered duplicate-free
lists built by `pySetAdd`. -/

/-- A parsed CSV row: header field ↦ cell value. -/
abbrev Row := List (String × String)

/-- `s.add(x)` on a Python set modelled as a duplicate-free list. -/
def pySetAdd (s : List String) (x : String) : List String :=
  if x ∈ s then s else s ++ [x]

/-- Code-point-lexicographic `≤` on char lists: how Python compares the
strings sorted here. -/
def charListLe : List Char → List Char → Bool
  | [], _ => true
  | _ :: _, [] => false
  | a :: as, b :: bs => if a = b then charListLe as bs else decide (a < b)

/-- Python string `≤`: code-point-lexicographic comparison. -/
def strLe (a b : String) : Bool := charListLe a.data b.data

/-- Insert a string into a `strLe`-sorted list, in front of the first
entry it is `≤`. -/
def strInsert (x : String) : List String → List String
  | [] => [x]
  | y :: ys => if strLe x y then x :: y :: ys else y :: strInsert x ys

/-- Python `sorted()` on a list of strings, by code-point order,
modelled as insertion sort.  (Python's sort is stable; on the
duplicate-free lists sorted here any sort by `≤` yields the same
result.) -/
def pySorted : List String → List String
  | [] => []
  | x :: xs => strInsert x (pySorted xs)

/-- Truthiness of `row.get(k)`: `None` (absent key) and the empty string
are falsy. -/
def cellTruthy : Option String → Bool
  | some s => s != ""
  | none => false

/-- Python `s.strip()`: drop leading and trailing whitespace.  (Python
strips a slightly larger Unicode whitespace class; they agree on the
ASCII whitespace relevant here.) -/
def pyStrip (s : String) : String :=
  String.mk (((s.data.dropWhile Char.isWhitespace).reverse.dropWhile
    Char.isWhitespace).reverse)

/-- Python `s.startswith(pre)`. -/
def pyStartsWith (s pre : String) : Bool := pre.data.isPrefixOf s.data

/-! ## Identifier Collector -/

/-- The loop body of `extract_ehrads_from_csv`: for one row,
`if 'EHRAID' in row and row['EHRAID']: ehrads.add(row['EHRAID'].strip())`. -/
def extractStep (ehrads : List String) (row : Row) : List String :=
  match row.lookup "EHRAID" with
  | some v => if v != "" then pySetAdd ehrads (pyStrip v) else ehrads
  | none => ehrads

/-- `extract_ehrads_from_csv` (lines 72–83): the set of unique trimmed
EHRAIDs of a parsed CSV file.  (The `except` clause — an unreadable file
contributes the empty set — is an I/O concern outside this model.) -/
def extract_ehrads_from_csv (rows : List Row) : List String :=
  rows.foldl extractStep []

/-- `get_all_ehrads` (lines 86–108) on a list of parsed CSV files:
union all per-file EHRAID sets, sort, and, when `MAX_EHRAIDS` is truthy
(not `None` and not `0`) and exceeded, keep only the first
`MAX_EHRAIDS` entries. -/
def get_all_ehrads (files : List (List Row)) (maxEhraids : Option Nat) :
    List String :=
  let allEhrads := files.foldl
    (fun acc f => (extract_ehrads_from_csv f).foldl pySetAdd acc) []
  let sortedEhrads := pySorted allEhrads
  match maxEhraids with
  | none => sortedEhrads
  | some m =>
    if m != 0 && decide (sortedEhrads.length > m) then sortedEhrads.take m
    else sortedEhrads

/-! ## Progress Tracker -/

/-- The `has_error_only` test of `get_already_scraped_ehrads` (line 143):
`'error' in row and row.get('error') and
len([k for k in row.keys() if k not in ['EHRAID', 'error'] and row.get(k)]) == 0`. -/
def hasErrorOnly (row : Row) : Bool :=
  (row.lookup "error").isSome && cellTruthy (row.lookup "error") &&
    ((row.filter fun kv =>
        kv.1 != "EHRAID" && kv.1 != "error" && kv.2 != "").length == 0)

/-- The loop body of `get_already_scraped_ehrads`: a row with a truthy
`EHRAID` cell adds its trimmed EHRAID unless the row is error-only. -/
def trackStep (scraped : List String) (row : Row) : List String :=
  match row.lookup "EHRAID" with
  | some e =>
    if e != "" then
      if hasErrorOnly row then scraped else pySetAdd scraped (pyStrip e)
    else scraped
  | none => scraped

/-- `get_already_scraped_ehrads` (lines 130–149) on the parsed rows of
the existing output CSV: the set of EHRAIDs considered already scraped.
(An absent output file yields the empty row list.) -/
def get_already_scraped_ehrads (rows : List Row) : List String :=
  rows.foldl trackStep []

/-! ## Schema-Evolving Writer: field order -/

/-- The `priority_fields` list of `get_field_order` (lines 169–188). -/
def priority_fields : List String :=
  ["EHRAID", "name", "purpose", "status", "ehraid", "uid", "uidFormatted",
   "chid", "chidFormatted", "legalFormId", "legalSeat", "legalSeatId",
   "registerOfficeId", "shabDate", "deleteDate", "cantonalExcerptWeb",
   "translation", "rabId"]

/-- The `address_fields` list of `get_field_order` (lines 191–201). -/
def address_fields : List String :=
  ["address_organisation", "address_careOf", "address_street",
   "address_houseNumber", "address_addon", "address_poBox",
   "address_town", "address_swissZipCode", "address_country"]

/-- The `other_fields` list of `get_field_order` (lines 204–213). -/
def other_fields : List String :=
  ["oldNames", "mainOffices", "furtherMainOffices", "branchOffices",
   "hasTakenOver", "wasTakenOverBy", "auditFirms", "auditFirmFor"]

/-- `get_field_order` (lines 166–215): the fixed preferred column order. -/
def get_field_order : List String :=
  priority_fields ++ address_fields ++ other_fields

/-- One pass of the pattern
`for field in order: if field in remaining: ordered.append(field); remaining.remove(field)`
used twice in `write_record_to_csv`; returns the appended fields (in
`order`'s order) and the remaining set. -/
def takeFieldsLoop : List String → List String → List String × List String
  | [], remaining => ([], remaining)
  | f :: fs, remaining =>
    if f ∈ remaining then
      let p := takeFieldsLoop fs (remaining.erase f)
      (f :: p.1, p.2)
    else takeFieldsLoop fs remaining

/-- The keys of the `pattern_fields` dict of `write_record_to_csv`
(lines 251–259): a remaining field starting with `'oldNames_'` is added,
one starting with `'address_'` is skipped (`pass`), and every other
remaining field is added by the `else` branch. -/
def patternFieldKeys (remaining : List String) : List String :=
  remaining.filter fun f =>
    if pyStartsWith f "oldNames_" then true
    else if pyStartsWith f "address_" then false
    else true

/-- The column-order computation of `write_record_to_csv`
(lines 240–271), as a function of the accumulated field-name set
`all_fieldnames` (modelled as a duplicate-free list; every loop over the
Python set is order-insensitive: the first two passes follow an explicit
order and the last sorts):
preferred fields present, then the sorted `pattern_fields` keys, then
the rest sorted. -/
def computeOrderedFields (fields : List String) : List String :=
  let p1 := takeFieldsLoop get_field_order fields
  let p2 := takeFieldsLoop (pySorted (patternFieldKeys p1.2)) p1.2
  p1.1 ++ p2.1 ++ pySorted p2.2

/-- The column order as the specification's words describe it (this
definition follows the spec, not the source, and exists only to be
compared against `computeOrderedFields`): the priority fields present,
in precedence; then the remaining fields bearing the repeating-group
prefix `'oldNames_'`, sorted; then every other remaining field,
sorted. -/
def specFieldOrder (fields : List String) : List String :=
  let p1 := get_field_order.filter (fun f => f ∈ fields)
  let rem := fields.filter (fun f => f ∉ get_field_order)
  p1 ++ pySorted (rem.filter (fun f => pyStartsWith f "oldNames_"))
    ++ pySorted (rem.filter (fun f => !(pyStartsWith f "oldNames_")))

/-! ## Record Fetcher -/

/-- A single-quote character, used by the Python `repr` of strings. -/
def squote : String := String.singleton (Char.ofNat 39)

mutual

/-- Python `repr` of a value (string escaping inside quotes is not
modelled; no theorem depends on it). -/
def pyRepr : Val → String
  | .vStr s => squote ++ s ++ squote
  | .vInt n => toString n
  | .vBool b => if b then "True" else "False"
  | .vNull => "None"
  | .vObj m => "\x7b" ++ String.intercalate ", " (pyReprPairs m) ++ "\x7d"
  | .vArr xs => "[" ++ String.intercalate ", " (pyReprList xs) ++ "]"

/-- `repr` of the elements of a list. -/
def pyReprList : List Val → List String
  | [] => []
  | v :: vs => pyRepr v :: pyReprList vs

/-- `repr` of the entries of a dict. -/
def pyReprPairs : List (String × Val) → List String
  | [] => []
  | (k, v) :: rest => (squote ++ k ++ squote ++ ": " ++ pyRepr v) :: pyReprPairs rest

end

/-- Python `str` of a value: the string itself for a string, `repr`
otherwise (`True`/`False`/`None`, decimal integers, bracketed
containers). -/
def pyStr : Val → String
  | .vStr s => s
  | v => pyRepr v

/-- The outcome of the network/JSON layer inside `scrape_company_data`
for one identifier.  `msg` models the `str` of the caught exception (or
the f-string body for the decode case). -/
inductive FetchOutcome : Type where
  | success (data : List (String × Val))
  | requestError (msg : String)
  | jsonDecodeError (msg : String)
  | otherError (msg : String)

/-- `scrape_company_data` (lines 291–312): on a well-formed JSON object
body, flatten it and bind the reserved key `'EHRAID'` to the input
identifier (overwriting any flattened field of that name); on a
`requests` exception, a JSON decode error, or any other exception,
return an error record.  The function is total: no outcome escapes as
an exception. -/
def scrape_company_data (ehraid : String) : FetchOutcome → List (String × Val)
  | .success data => pyInsert (flatten_dict data "") "EHRAID" (.vStr ehraid)
  | .requestError msg => [("EHRAID", .vStr ehraid), ("error", .vStr msg)]
  | .jsonDecodeError msg =>
    [("EHRAID", .vStr ehraid), ("error", .vStr ("JSON decode error: " ++ msg))]
  | .otherError msg => [("EHRAID", .vStr ehraid), ("error", .vStr msg)]

/-! ## The per-identifier write path of one run -/

/-- `row.get(k)` on a record: `None` when the key is absent. -/
def pyGet (r : List (String × Val)) (k : String) : Val :=
  (r.lookup k).getD .vNull

/-- Python `a or b`: `a` if truthy, else `b`. -/
def pyOrV (a b : Val) : Val := if pyTruthy a then a else b

/-- The `purpose` displayed by `scrape_and_save` (line 331):
`data.get('purpose') or data.get('zweck') or data.get('but') or 'N/A'`. -/
def purposeOf (data : List (String × Val)) : Val :=
  pyOrV (pyGet data "purpose")
    (pyOrV (pyGet data "zweck") (pyOrV (pyGet data "but") (.vStr "N/A")))

/-- Whether the progress display of `scrape_and_save` (line 332) raises:
`purpose_str = purpose[:50] + "..." if len(str(purpose)) > 50 else str(purpose)`
raises a `TypeError` for every non-string `purpose` whose `str` form
exceeds 50 characters — an int, bool or `None` is not subscriptable,
and a list slices but cannot be concatenated with a string. -/
def displayRaises (purpose : Val) : Bool :=
  (match purpose with | .vStr _ => false | _ => true)
    && decide (50 < (pyStr purpose).length)

/-- The rows appended to the output CSV for one identifier dispatched by
`main` (lines 404–413), given the fetch outcome: `scrape_and_save`
(lines 315–339) first fetches — `scrape_company_data` always returns a
record — and immediately writes it; if the subsequent progress display
raises, the exception propagates out of the task and the `as_completed`
loop in `main` appends a second, error record whose error field is
`f'Exception: {e}'` (the exception text is modelled by `excMsg`). -/
def run_records (ehraid : String) (o : FetchOutcome) (excMsg : String) :
    List (List (String × Val)) :=
  let data := scrape_company_data ehraid o
  if displayRaises (purposeOf data) then
    [data, [("EHRAID", .vStr ehraid), ("error", .vStr ("Exception: " ++ excMsg))]]
  else [data]

/-! ## Basic lemmas: Python sets, dicts and sorting -/

theorem mem_pySetAdd {s : List String} {x y : String} :
    x ∈ pySetAdd s y ↔ x ∈ s ∨ x = y := by
  unfold pySetAdd
  split
  · constructor
    · exact Or.inl
    · rintro (h | rfl) <;> assumption
  · simp

theorem nodup_pySetAdd {s : List String} (h : s.Nodup) (y : String) :
    (pySetAdd s y).Nodup := by
  unfold pySetAdd
  split
  · exact h
  · simpa [List.nodup_append] using ⟨h, by assumption⟩

theorem lookup_pyInsert_self (m : List (String × Val)) (k : String) (v : Val) :
    (pyInsert m k v).lookup k = some v := by
  induction m with
  | nil => simp [pyInsert]
  | cons kv rest ih =>
    obtain ⟨k', v'⟩ := kv
    unfold pyInsert
    by_cases h : k' = k
    · simp [h]
    · simp [h, List.lookup, Ne.symm h, beq_false_of_ne (Ne.symm h), ih]

theorem pyInsert_of_not_mem {m : List (String × Val)} {k : String}
    (h : k ∉ m.map Prod.fst) (v : Val) : pyInsert m k v = m ++ [(k, v)] := by
  induction m with
  | nil => simp [pyInsert]
  | cons kv rest ih =>
    obtain ⟨k', v'⟩ := kv
    simp only [List.map_cons, List.mem_cons] at h
    push_neg at h
    simp [pyInsert, Ne.symm h.1, ih h.2]

theorem foldl_pyInsert_of_nodupKeys (d : List (String × Val)) :
    ∀ acc : List (String × Val),
      ((acc ++ d).map Prod.fst).Nodup →
      d.foldl (fun m kv => pyInsert m kv.1 kv.2) acc = acc ++ d := by
  induction d with
  | nil => intro acc _; simp
  | cons kv rest ih =>
    intro acc hnd
    obtain ⟨k, v⟩ := kv
    have hk : k ∉ acc.map Prod.fst := by
      intro hmem
      have hd := (List.nodup_append.mp (by simpa [List.map_append] using hnd)).2.2
      exact hd hmem (by simp)
    have hstep : pyInsert acc k v = acc ++ [(k, v)] := pyInsert_of_not_mem hk v
    have : ((acc ++ [(k, v)]) ++ rest).map Prod.fst |>.Nodup := by
      simpa [List.map_append, List.append_assoc] using hnd
    calc ((k, v) :: rest).foldl (fun m kv => pyInsert m kv.1 kv.2) acc
        = rest.foldl (fun m kv => pyInsert m kv.1 kv.2) (acc ++ [(k, v)]) := by
          simp [List.foldl_cons, hstep]
      _ = (acc ++ [(k, v)]) ++ rest := ih (acc ++ [(k, v)]) this
      _ = acc ++ (k, v) :: rest := by simp

/-- A dict built from an already-duplicate-free item list is that list. -/
theorem pyDict_eq_self {d : List (String × Val)}
    (h : (d.map Prod.fst).Nodup) : pyDict d = d := by
  simpa using foldl_pyInsert_of_nodupKeys d [] (by simpa using h)

theorem charListLe_total : ∀ as bs : List Char,
    charListLe as bs = true ∨ charListLe bs as = true
  | [], _ => Or.inl rfl
  | _ :: _, [] => Or.inr rfl
  | a :: as, b :: bs => by
    rcases lt_trichotomy a b with h | h | h
    · left; simp [charListLe, ne_of_lt h, h]
    · subst h
      rcases charListLe_total as bs with h | h
      · left; simpa [charListLe] using h
      · right; simpa [charListLe] using h
    · right; simp [charListLe, ne_of_lt h, h]

theorem charListLe_trans : ∀ as bs cs : List Char,
    charListLe as bs = true → charListLe bs cs = true →
    charListLe as cs = true
  | [], _, _, _, _ => rfl
  | a :: as, [], cs, h₁, _ => by simp [charListLe] at h₁
  | a :: as, b :: bs, [], _, h₂ => by simp [charListLe] at h₂
  | a :: as, b :: bs, c :: cs, h₁, h₂ => by
    by_cases hab : a = b
    · subst hab
      by_cases hbc : a = c
      · subst hbc
        simp only [charListLe, if_pos rfl] at h₁ h₂ ⊢
        exact charListLe_trans as bs cs h₁ h₂
      · simpa [charListLe, hbc] using by simpa [charListLe, hbc] using h₂
    · by_cases hbc : b = c
      · subst hbc
        simpa [charListLe, hab] using by simpa [charListLe, hab] using h₁
      · have h₁' : a < b := by simpa [charListLe, hab] using h₁
        have h₂' : b < c := by simpa [charListLe, hbc] using h₂
        have hac : a < c := lt_trans h₁' h₂'
        simp [charListLe, ne_of_lt hac, hac]

theorem strLe_total (a b : String) : strLe a b = true ∨ strLe b a = true :=
  charListLe_total a.data b.data

theorem strLe_trans {a b c : String} (h₁ : strLe a b = true)
    (h₂ : strLe b c = true) : strLe a c = true :=
  charListLe_trans a.data b.data c.data h₁ h₂

/-- Sortedness in Python's string order. -/
def StrSorted (l : List String) : Prop :=
  l.Pairwise (fun a b => strLe a b = true)

theorem strInsert_perm (x : String) (l : List String) :
    List.Perm (strInsert x l) (x :: l) := by
  induction l with
  | nil => rfl
  | cons y ys ih =>
    unfold strInsert
    split
    · rfl
    · exact ((ih.cons y).trans (List.Perm.swap x y ys))

theorem mem_strInsert {x y : String} {l : List String} :
    x ∈ strInsert y l ↔ x = y ∨ x ∈ l := by
  rw [(strInsert_perm y l).mem_iff]
  simp

theorem strInsert_sorted {x : String} {l : List String} (h : StrSorted l) :
    StrSorted (strInsert x l) := by
  induction l with
  | nil => simp [strInsert, StrSorted]
  | cons y ys ih =>
    unfold strInsert
    split
    · rename_i hxy
      refine List.Pairwise.cons ?_ h
      intro z hz
      rcases List.mem_cons.mp hz with rfl | hz
      · exact hxy
      · exact strLe_trans hxy ((List.pairwise_cons.mp h).1 z hz)
    · rename_i hxy
      have hyx : strLe y x = true := by
        rcases strLe_total x y with h' | h'
        · exact absurd h' hxy
        · exact h'
      obtain ⟨hy, hys⟩ := List.pairwise_cons.mp h
      refine List.Pairwise.cons ?_ (ih hys)
      intro z hz
      rcases mem_strInsert.mp hz with rfl | hz
      · exact hyx
      · exact hy z hz

theorem pySorted_perm (l : List String) : List.Perm (pySorted l) l := by
  induction l with
  | nil => rfl
  | cons x xs ih => exact (strInsert_perm x (pySorted xs)).trans (ih.cons x)

theorem mem_pySorted {x : String} {l : List String} :
    x ∈ pySorted l ↔ x ∈ l :=
  (pySorted_perm l).mem_iff

theorem nodup_pySorted {l : List String} (h : l.Nodup) :
    (pySorted l).Nodup :=
  ((pySorted_perm l).nodup_iff).mpr h

theorem pySorted_sorted (l : List String) : StrSorted (pySorted l) := by
  induction l with
  | nil => exact List.Pairwise.nil
  | cons x xs ih => exact strInsert_sorted ih

/-! ## Characterizations of the collector and tracker folds -/

/-- What it takes for one CSV row to contribute an identifier to the
collector: an `EHRAID` cell present and truthy, whose stripped value is
the contribution. -/
def rowContributes (row : Row) (x : String) : Prop :=
  ∃ v, row.lookup "EHRAID" = some v ∧ v ≠ "" ∧ x = pyStrip v

theorem mem_foldl_extractStep (rows : List Row) :
    ∀ (acc : List String) (x : String),
      x ∈ rows.foldl extractStep acc ↔
        x ∈ acc ∨ ∃ row ∈ rows, rowContributes row x := by
  induction rows with
  | nil => simp
  | cons row rest ih =>
    intro acc x
    rw [List.foldl_cons, ih]
    have hstep : x ∈ extractStep acc row ↔ x ∈ acc ∨ rowContributes row x := by
      unfold extractStep rowContributes
      cases hl : row.lookup "EHRAID" with
      | none => simp
      | some v =>
        by_cases hv : v = ""
        · simp [hv]
        · simp [hv, mem_pySetAdd]
    rw [hstep]
    simp only [List.mem_cons]
    constructor
    · rintro ((h | h) | ⟨row', hr, hc⟩)
      · exact Or.inl h
      · exact Or.inr ⟨row, Or.inl rfl, h⟩
      · exact Or.inr ⟨row', Or.inr hr, hc⟩
    · rintro (h | ⟨row', (rfl | hr), hc⟩)
      · exact Or.inl (Or.inl h)
      · exact Or.inl (Or.inr hc)
      · exact Or.inr ⟨row', hr, hc⟩

theorem nodup_foldl_extractStep (rows : List Row) :
    ∀ acc : List String, acc.Nodup → (rows.foldl extractStep acc).Nodup := by
  induction rows with
  | nil => intro acc h; simpa using h
  | cons row rest ih =>
    intro acc h
    rw [List.foldl_cons]
    refine ih _ ?_
    unfold extractStep
    cases row.lookup "EHRAID" with
    | none => exact h
    | some v =>
      by_cases hv : (v != "") = true
      · simpa [hv] using nodup_pySetAdd h (pyStrip v)
      · simpa [hv] using h

theorem mem_extract_ehrads {rows : List Row} {x : String} :
    x ∈ extract_ehrads_from_csv rows ↔ ∃ row ∈ rows, rowContributes row x := by
  unfold extract_ehrads_from_csv
  rw [mem_foldl_extractStep]
  simp

theorem nodup_extract_ehrads (rows : List Row) :
    (extract_ehrads_from_csv rows).Nodup :=
  nodup_foldl_extractStep rows [] List.nodup_nil

/-- What it takes for one output-CSV row to mark its identifier as
already scraped: a truthy `EHRAID` cell and not `has_error_only`. -/
def rowMarksDone (row : Row) (x : String) : Prop :=
  ∃ e, row.lookup "EHRAID" = some e ∧ e ≠ "" ∧ hasErrorOnly row = false ∧
    x = pyStrip e

theorem mem_foldl_trackStep (rows : List Row) :
    ∀ (acc : List String) (x : String),
      x ∈ rows.foldl trackStep acc ↔
        x ∈ acc ∨ ∃ row ∈ rows, rowMarksDone row x := by
  induction rows with
  | nil => simp
  | cons row rest ih =>
    intro acc x
    rw [List.foldl_cons, ih]
    have hstep : x ∈ trackStep acc row ↔ x ∈ acc ∨ rowMarksDone row x := by
      unfold trackStep rowMarksDone
      cases hl : row.lookup "EHRAID" with
      | none => simp
      | some e =>
        by_cases he : e = ""
        · simp [he]
        · by_cases herr : hasErrorOnly row
          · simp [he, herr]
          · simp [he, eq_false_of_ne_true herr, mem_pySetAdd]
    rw [hstep]
    simp only [List.mem_cons]
    constructor
    · rintro ((h | h) | ⟨row', hr, hc⟩)
      · exact Or.inl h
      · exact Or.inr ⟨row, Or.inl rfl, h⟩
      · exact Or.inr ⟨row', Or.inr hr, hc⟩
    · rintro (h | ⟨row', (rfl | hr), hc⟩)
      · exact Or.inl (Or.inl h)
      · exact Or.inl (Or.inr hc)
      · exact Or.inr ⟨row', hr, hc⟩

theorem mem_foldl_pySetAdd (l : List String) :
    ∀ (acc : List String) (x : String),
      x ∈ l.foldl pySetAdd acc ↔ x ∈ acc ∨ x ∈ l := by
  induction l with
  | nil => simp
  | cons y ys ih =>
    intro acc x
    rw [List.foldl_cons, ih, mem_pySetAdd]
    simp only [List.mem_cons]
    exact or_assoc

theorem nodup_foldl_pySetAdd (l : List String) :
    ∀ acc : List String, acc.Nodup → (l.foldl pySetAdd acc).Nodup := by
  induction l with
  | nil => intro acc h; simpa using h
  | cons y ys ih =>
    intro acc h
    rw [List.foldl_cons]
    exact ih _ (nodup_pySetAdd h y)

/-- Membership in the union accumulated by the file loop of
`get_all_ehrads` (`all_ehrads.update(ehrads)` over all files). -/
theorem mem_foldl_union (files : List (List Row)) :
    ∀ (acc : List String) (x : String),
      x ∈ files.foldl
          (fun acc f => (extract_ehrads_from_csv f).foldl pySetAdd acc) acc ↔
        x ∈ acc ∨ ∃ f ∈ files, x ∈ extract_ehrads_from_csv f := by
  induction files with
  | nil => simp
  | cons f fs ih =>
    intro acc x
    rw [List.foldl_cons, ih, mem_foldl_pySetAdd]
    simp only [List.mem_cons]
    constructor
    · rintro ((h | h) | ⟨g, hg, hx⟩)
      · exact Or.inl h
      · exact Or.inr ⟨f, Or.inl rfl, h⟩
      · exact Or.inr ⟨g, Or.inr hg, hx⟩
    · rintro (h | ⟨g, (rfl | hg), hx⟩)
      · exact Or.inl (Or.inl h)
      · exact Or.inl (Or.inr hx)
      · exact Or.inr ⟨g, hg, hx⟩

/-- The union accumulated by the file loop keeps the set
duplicate-free. -/
theorem nodup_foldl_union (files : List (List Row)) :
    ∀ acc : List String, acc.Nodup →
      (files.foldl
        (fun acc f => (extract_ehrads_from_csv f).foldl pySetAdd acc)
        acc).Nodup := by
  induction files with
  | nil => intro acc h; simpa using h
  | cons f fs ih =>
    intro acc h
    rw [List.foldl_cons]
    exact ih _ (nodup_foldl_pySetAdd _ _ h)

/-! ## Characterization of the `write_record_to_csv` column order -/

theorem takeFieldsLoop_snd : ∀ (order rem : List String), rem.Nodup →
    (takeFieldsLoop order rem).2 = rem.filter (fun f => decide (f ∉ order))
  | [], rem, _ => by simp [takeFieldsLoop]
  | f :: fs, rem, h => by
    unfold takeFieldsLoop
    by_cases hf : f ∈ rem
    · rw [if_pos hf]
      show (takeFieldsLoop fs (rem.erase f)).2 = _
      rw [takeFieldsLoop_snd fs (rem.erase f) (h.erase f),
        h.erase_eq_filter f, List.filter_filter]
      refine List.filter_congr fun a _ => ?_
      by_cases he : a = f <;> simp [List.mem_cons, not_or, he]
    · rw [if_neg hf]
      rw [takeFieldsLoop_snd fs rem h]
      refine List.filter_congr fun a ha => ?_
      have hne : a ≠ f := fun e => hf (e ▸ ha)
      simp [List.mem_cons, not_or, hne]

theorem takeFieldsLoop_fst : ∀ (order rem : List String), order.Nodup →
    rem.Nodup →
    (takeFieldsLoop order rem).1 = order.filter (fun f => decide (f ∈ rem))
  | [], rem, _, _ => by simp [takeFieldsLoop]
  | f :: fs, rem, h1, h2 => by
    unfold takeFieldsLoop
    by_cases hf : f ∈ rem
    · rw [if_pos hf]
      show f :: (takeFieldsLoop fs (rem.erase f)).1 = _
      rw [takeFieldsLoop_fst fs (rem.erase f) (List.Nodup.of_cons h1)
        (h2.erase f)]
      rw [List.filter_cons_of_pos (by simpa using hf)]
      congr 1
      refine List.filter_congr fun a ha => ?_
      have hne : a ≠ f := by
        intro e
        exact (List.nodup_cons.mp h1).1 (e ▸ ha)
      simp [List.mem_erase_of_ne hne]
    · rw [if_neg hf]
      rw [takeFieldsLoop_fst fs rem (List.Nodup.of_cons h1) h2]
      rw [List.filter_cons_of_neg (by simpa using hf)]

theorem get_field_order_nodup : get_field_order.Nodup := by decide

/-- The `pattern_fields` keys are exactly the remaining fields that
either bear the `oldNames_` prefix or do not bear the `address_`
prefix. -/
theorem patternFieldKeys_eq (l : List String) :
    patternFieldKeys l = l.filter
      (fun f => pyStartsWith f "oldNames_" || !(pyStartsWith f "address_")) := by
  refine List.filter_congr fun a _ => ?_
  by_cases h1 : pyStartsWith a "oldNames_" <;>
    by_cases h2 : pyStartsWith a "address_" <;> simp [h1, h2]

/-- Second pass of the ordering: the sorted `pattern_fields` keys are
all taken (each is still remaining), and what remains afterwards is
exactly the `address_`-prefixed leftovers. -/
theorem takePatternPhase (R : List String) (hR : R.Nodup) :
    (takeFieldsLoop (pySorted (patternFieldKeys R)) R).1 =
        pySorted (R.filter
          (fun f => pyStartsWith f "oldNames_" || !(pyStartsWith f "address_")))
      ∧ (takeFieldsLoop (pySorted (patternFieldKeys R)) R).2 =
        R.filter
          (fun f => !(pyStartsWith f "oldNames_") && pyStartsWith f "address_") := by
  have hpat := patternFieldKeys_eq R
  have hsnodup : (pySorted (patternFieldKeys R)).Nodup := by
    rw [hpat]
    exact nodup_pySorted (hR.filter _)
  have hmemS : ∀ a, a ∈ pySorted (patternFieldKeys R) ↔
      a ∈ R ∧ (pyStartsWith a "oldNames_" || !(pyStartsWith a "address_")) = true := by
    intro a
    rw [hpat, mem_pySorted, List.mem_filter]
  constructor
  · rw [takeFieldsLoop_fst _ _ hsnodup hR, hpat]
    exact List.filter_eq_self.mpr fun a ha =>
      by simpa using (List.mem_filter.mp (mem_pySorted.mp ha)).1
  · rw [takeFieldsLoop_snd _ _ hR]
    refine List.filter_congr fun a ha => ?_
    by_cases h1 : pyStartsWith a "oldNames_" <;>
      by_cases h2 : pyStartsWith a "address_" <;>
      simp [hmemS, ha, h1, h2]

/-- **C4 (amended)**: the column order `write_record_to_csv` actually
computes: first the preferred fields that are present, in
`get_field_order`'s precedence; second *all* remaining fields that bear
the `oldNames_` prefix or do not bear the `address_` prefix, sorted
alphabetically together; third the remaining `address_`-prefixed
fields, sorted alphabetically. -/
theorem computeOrderedFields_characterization (fields : List String)
    (h : fields.Nodup) :
    computeOrderedFields fields =
      get_field_order.filter (fun f => decide (f ∈ fields))
      ++ pySorted ((fields.filter (fun f => decide (f ∉ get_field_order))).filter
          (fun f => pyStartsWith f "oldNames_" || !(pyStartsWith f "address_")))
      ++ pySorted ((fields.filter (fun f => decide (f ∉ get_field_order))).filter
          (fun f => !(pyStartsWith f "oldNames_") && pyStartsWith f "address_")) := by
  have hrem : (takeFieldsLoop get_field_order fields).2 =
      fields.filter (fun f => decide (f ∉ get_field_order)) :=
    takeFieldsLoop_snd get_field_order fields h
  have hp1 : (takeFieldsLoop get_field_order fields).1 =
      get_field_order.filter (fun f => decide (f ∈ fields)) :=
    takeFieldsLoop_fst get_field_order fields get_field_order_nodup h
  have hremnd : (fields.filter (fun f => decide (f ∉ get_field_order))).Nodup :=
    h.filter _
  have hphase := takePatternPhase _ hremnd
  simp only [computeOrderedFields, hrem, hp1, hphase.1, hphase.2]

/-! ## Flattening lemmas -/

theorem flattenItems_append (xs ys : List (String × Val)) (p : String) :
    flattenItems (xs ++ ys) p = flattenItems xs p ++ flattenItems ys p := by
  induction xs with
  | nil => simp [flattenItems]
  | cons kv rest ih =>
    obtain ⟨k, v⟩ := kv
    rw [List.cons_append, flattenItems.eq_def ((k, v) :: (rest ++ ys)) p,
      flattenItems.eq_def ((k, v) :: rest) p]
    dsimp only
    rw [ih, List.append_assoc]

/-- On a dict whose values are all scalars, the flatten pass with empty
parent key reproduces the dict's items unchanged. -/
theorem flattenItems_of_scalars {d : List (String × Val)}
    (h : ∀ kv ∈ d, kv.2.isScalar = true) : flattenItems d "" = d := by
  induction d with
  | nil => simp [flattenItems]
  | cons kv rest ih =>
    obtain ⟨k, v⟩ := kv
    have hv : v.isScalar = true := h (k, v) (by simp)
    have hrest : ∀ kv ∈ rest, kv.2.isScalar = true := fun kv hkv =>
      h kv (by simp [hkv])
    cases v
    case vObj m => simp [Val.isScalar] at hv
    case vArr xs => simp [Val.isScalar] at hv
    all_goals simp [flattenItems, mkKey, ih hrest]

theorem flattenItems_emptyObj (k p : String) :
    flattenItems [(k, .vObj [])] p = [] := by
  simp [flattenItems, pyDict]

theorem flattenItems_emptyArr (k p : String) :
    flattenItems [(k, .vArr [])] p = [] := by
  simp [flattenItems, flattenListItems]

/-- Every fetch outcome's record binds the reserved key `EHRAID` to the
input identifier (helper shared by several claims below). -/
theorem scrape_lookup_identifier (ehraid : String) (o : FetchOutcome) :
    (scrape_company_data ehraid o).lookup "EHRAID" = some (.vStr ehraid) := by
  cases o with
  | success data => exact lookup_pyInsert_self (flatten_dict data "") _ _
  | requestError msg => rfl
  | jsonDecodeError msg => rfl
  | otherError msg => rfl

/-! ## The claims -/

/-- **C2**: flattening a nested mapping `{a: {b: v}}` yields key `a_b`
with value `v`; a sequence value yields indexed keys `a_0`, `a_1`, …,
recursively flattened when the elements are mappings; in particular the
address example and the oldNames example of the specification hold. -/
theorem flatten_nested_and_sequence (a b : String) (v w : Val)
    (ha : a ≠ "") (hv : v.isScalar = true) (hw : w.isScalar = true) :
    flatten_dict [(a, .vObj [(b, v)])] "" = [(a ++ "_" ++ b, v)]
    ∧ flatten_dict [(a, .vArr [v, w])] "" = [(a ++ "_0", v), (a ++ "_1", w)]
    ∧ flatten_dict [("address", .vObj [("town", .vStr "Zug"),
        ("swissZipCode", .vStr "6300")])] "" =
        [("address_town", .vStr "Zug"), ("address_swissZipCode", .vStr "6300")]
    ∧ flatten_dict [("oldNames", .vArr [.vObj [("name", .vStr "A")],
        .vObj [("name", .vStr "B")]])] "" =
        [("oldNames_0_name", .vStr "A"), ("oldNames_1_name", .vStr "B")] := by
  have hkey : ∀ n : Nat, a ++ "_" ++ toString n = a ++ ("_" ++ toString n) := by
    intro n
    rw [String.append_assoc]
  have hne : a ++ "_0" ≠ a ++ "_1" := by
    intro h
    have h2 := congrArg String.data h
    rw [String.data_append, String.data_append] at h2
    have := List.append_cancel_left h2
    simp at this
  refine ⟨?_, ?_, ?_, ?_⟩
  · cases v <;> simp_all [Val.isScalar, flatten_dict, flattenItems, mkKey,
      ha, pyDict, pyInsert]
  · cases v <;> cases w <;>
      simp_all [Val.isScalar, flatten_dict, flattenItems, flattenListItems,
        mkKey, pyDict, pyInsert, hne, show (toString (0 : Nat)) = "0" from rfl,
        show (toString (1 : Nat)) = "1" from rfl, String.append_assoc]
  · simp [flatten_dict, flattenItems, pyDict, pyInsert, mkKey]
  · simp [flatten_dict, flattenItems, flattenListItems, pyDict, pyInsert,
      mkKey]
    rfl

/-- Witness for C2 at concrete inputs. -/
theorem flatten_nested_and_sequence_witness :
    flatten_dict [("x", .vObj [("y", .vStr "v")])] "" = [("x_y", .vStr "v")] :=
  (flatten_nested_and_sequence "x" "y" (.vStr "v") (.vStr "w")
    (by decide) rfl rfl).1

/-- **C3**: flattening leaves a mapping whose values are all scalars
unchanged, and hence is idempotent on such mappings. -/
theorem flatten_flat_identity_idempotent (d : List (String × Val))
    (h1 : (d.map Prod.fst).Nodup)
    (h2 : d.all (fun kv => kv.2.isScalar) = true) :
    flatten_dict d "" = d
    ∧ flatten_dict (flatten_dict d "") "" = flatten_dict d "" := by
  have hs : ∀ kv ∈ d, kv.2.isScalar = true := by
    intro kv hkv
    exact List.all_eq_true.mp h2 kv hkv
  have hid : flatten_dict d "" = d := by
    unfold flatten_dict
    rw [flattenItems_of_scalars hs]
    exact pyDict_eq_self h1
  exact ⟨hid, by rw [hid, hid]⟩

/-- Witness for C3 at the specification's example `{"EHRAID": "22"}`. -/
theorem flatten_flat_identity_idempotent_witness :
    flatten_dict [("EHRAID", Val.vStr "22")] "" = [("EHRAID", Val.vStr "22")] :=
  (flatten_flat_identity_idempotent [("EHRAID", .vStr "22")]
    (by decide) rfl).1

/-- **C6**: the fetcher converts every failure outcome — transport
error, JSON decode error, or any other exception — into an error record
carrying the identifier and a failure description (prefixed
`JSON decode error: ` in the decode case, the exception's own text
otherwise), and the record of every outcome carries the identifier;
no outcome escapes as an exception (the embedding is a total
function). -/
theorem fetch_failure_yields_error_record (ehraid msg : String) :
    scrape_company_data ehraid (.requestError msg)
      = [("EHRAID", .vStr ehraid), ("error", .vStr msg)]
    ∧ scrape_company_data ehraid (.jsonDecodeError msg)
      = [("EHRAID", .vStr ehraid),
         ("error", .vStr ("JSON decode error: " ++ msg))]
    ∧ scrape_company_data ehraid (.otherError msg)
      = [("EHRAID", .vStr ehraid), ("error", .vStr msg)]
    ∧ ∀ o : FetchOutcome,
        (scrape_company_data ehraid o).lookup "EHRAID"
          = some (.vStr ehraid) :=
  ⟨rfl, rfl, rfl, fun o => scrape_lookup_identifier ehraid o⟩

/-- **C8**: the success record always binds the reserved key `EHRAID`
to the identifier the lookup was invoked with — even when the flattened
response body itself contains a top-level `EHRAID` field, it is
overwritten. -/
theorem fetch_binds_identifier_key (ehraid : String)
    (data : List (String × Val)) :
    (scrape_company_data ehraid (.success data)).lookup "EHRAID"
      = some (.vStr ehraid) :=
  lookup_pyInsert_self (flatten_dict data "") "EHRAID" (.vStr ehraid)

/-- **C9**: a key whose value is an empty mapping or an empty sequence
contributes nothing to the flattened record — no key derived from it
appears. -/
theorem flatten_drops_empty_containers (xs ys : List (String × Val))
    (k : String) :
    flatten_dict (xs ++ (k, .vObj []) :: ys) "" = flatten_dict (xs ++ ys) ""
    ∧ flatten_dict (xs ++ (k, .vArr []) :: ys) "" = flatten_dict (xs ++ ys) "" := by
  constructor
  · unfold flatten_dict
    rw [show xs ++ (k, Val.vObj []) :: ys
        = xs ++ [(k, Val.vObj [])] ++ ys by simp]
    rw [flattenItems_append, flattenItems_append, flattenItems_emptyObj,
      flattenItems_append]
    simp
  · unfold flatten_dict
    rw [show xs ++ (k, Val.vArr []) :: ys
        = xs ++ [(k, Val.vArr [])] ++ ys by simp]
    rw [flattenItems_append, flattenItems_append, flattenItems_emptyArr,
      flattenItems_append]
    simp

/-- **C1 (counterexample)**: a fetch outcome whose flattened `purpose`
field is a 52-digit integer makes the progress display of
`scrape_and_save` raise a `TypeError` *after* the record has already
been written, so the `as_completed` handler in `main` appends a second,
error row for the same identifier: two rows, not exactly one. -/
theorem run_records_two_rows_on_display_exception :
    (run_records "1" (.success [("purpose", .vInt ((10 : Int) ^ 51))])
      "unsupported operand").length = 2
    ∧ (run_records "1" (.success [("purpose", .vInt ((10 : Int) ^ 51))])
        "unsupported operand").map (fun r => r.lookup "EHRAID")
      = [some (.vStr "1"), some (.vStr "1")] := by
  have h : run_records "1" (.success [("purpose", .vInt ((10 : Int) ^ 51))])
      "unsupported operand"
      = [[("purpose", .vInt ((10 : Int) ^ 51)), ("EHRAID", .vStr "1")],
         [("EHRAID", .vStr "1"),
          ("error", .vStr ("Exception: " ++ "unsupported operand"))]] := by
    simp [run_records, scrape_company_data, flatten_dict, flattenItems,
      pyDict, pyInsert, mkKey]
    rfl
  rw [h]
  exact ⟨rfl, rfl⟩

/-- **C1 (amended)**: every identifier dispatched to the fetch-and-save
task yields at least one appended row, and exactly one unless the
post-write progress display raises (a non-string purpose whose `str`
form exceeds 50 characters), in which case exactly two rows (the
fetched record plus the orchestrator's error record) are appended;
every appended row carries the identifier. -/
theorem run_records_row_count (ehraid : String) (o : FetchOutcome)
    (excMsg : String) :
    (run_records ehraid o excMsg).length =
      (if displayRaises (purposeOf (scrape_company_data ehraid o)) then 2
       else 1)
    ∧ ∀ r ∈ run_records ehraid o excMsg,
        r.lookup "EHRAID" = some (.vStr ehraid) := by
  simp only [run_records]
  constructor
  · split <;> rfl
  · intro r hr
    split at hr
    · rcases List.mem_cons.mp hr with rfl | hr2
      · exact scrape_lookup_identifier ehraid o
      · rcases List.mem_cons.mp hr2 with rfl | h
        · rfl
        · exact absurd h (List.not_mem_nil r)
    · rcases List.mem_cons.mp hr with rfl | h
      · exact scrape_lookup_identifier ehraid o
      · exact absurd h (List.not_mem_nil r)

/-- Witness for the amended C1 at a concrete failing fetch. -/
theorem run_records_row_count_witness :
    (run_records "7" (.requestError "timeout") "m").length = 1
    ∧ ([("EHRAID", Val.vStr "7"), ("error", Val.vStr "timeout")].lookup
        "EHRAID" = some (Val.vStr "7")) :=
  ⟨by
     rw [(run_records_row_count "7" (.requestError "timeout") "m").1]
     rfl,
   (run_records_row_count "7" (.requestError "timeout") "m").2
     [("EHRAID", Val.vStr "7"), ("error", Val.vStr "timeout")]
     (List.mem_singleton_self _)⟩

/-- **C4 (counterexample)**: on the field set `{aaa, oldNames_0}` the
code's order is `[aaa, oldNames_0]` — the non-group field `aaa` is
sorted *together with* the `oldNames_`-prefixed field, not after it —
while the specified order is `[oldNames_0, aaa]`. -/
theorem field_order_spec_divergence :
    computeOrderedFields ["aaa", "oldNames_0"] = ["aaa", "oldNames_0"]
    ∧ specFieldOrder ["aaa", "oldNames_0"] = ["oldNames_0", "aaa"]
    ∧ computeOrderedFields ["aaa", "oldNames_0"]
        ≠ specFieldOrder ["aaa", "oldNames_0"] := by
  refine ⟨rfl, rfl, ?_⟩
  decide

/-- Witness for the amended C4 at a concrete field set. -/
theorem computeOrderedFields_characterization_witness :
    computeOrderedFields ["aaa", "oldNames_0", "address_zz"] =
      get_field_order.filter
        (fun f => decide (f ∈ ["aaa", "oldNames_0", "address_zz"]))
      ++ pySorted ((["aaa", "oldNames_0", "address_zz"].filter
          (fun f => decide (f ∉ get_field_order))).filter
          (fun f => pyStartsWith f "oldNames_" || !(pyStartsWith f "address_")))
      ++ pySorted ((["aaa", "oldNames_0", "address_zz"].filter
          (fun f => decide (f ∉ get_field_order))).filter
          (fun f => !(pyStartsWith f "oldNames_")
            && pyStartsWith f "address_")) :=
  computeOrderedFields_characterization ["aaa", "oldNames_0", "address_zz"]
    (by decide)

/-- **C5 (counterexample)**: a row whose only populated cell is the
identifier — the error field and every other field empty — is counted
as already done by `get_already_scraped_ehrads`, although it has no
populated field other than the identifier and the error field. -/
theorem tracker_counts_dataless_row_done :
    get_already_scraped_ehrads
        [[("EHRAID", "9"), ("name", ""), ("error", "")]] = ["9"]
    ∧ ([(("EHRAID" : String), ("9" : String)), ("name", ""),
        ("error", "")].filter
        (fun kv => kv.1 != "EHRAID" && kv.1 != "error" && kv.2 != "")) = [] :=
  ⟨rfl, rfl⟩

/-- **C5 (amended)**: an identifier is reported as already done exactly
when some row has a truthy identifier cell and is *not* error-only — a
row is error-only when its error field is populated and every field
other than the identifier and the error field is empty; rows with a
populated error field and no other data are retried, and in particular
the specification's example (a successful row for id 5, an error-only
row for id 7) yields done-set `{5}`. -/
theorem tracker_done_characterization :
    (∀ (rows : List Row) (x : String),
      x ∈ get_already_scraped_ehrads rows ↔ ∃ row ∈ rows, rowMarksDone row x)
    ∧ get_already_scraped_ehrads
        [[("EHRAID", "5"), ("name", "Acme"), ("error", "")],
         [("EHRAID", "7"), ("name", ""), ("error", "boom")]] = ["5"] := by
  constructor
  · intro rows x
    unfold get_already_scraped_ehrads
    rw [mem_foldl_trackStep]
    simp
  · rfl

/-- **C7**: for every collection of input files, the collector returns
the sorted, duplicate-free union of the trimmed identifier sets
extracted from all files — in particular, for any two files the result
contains exactly the members of I1 ∪ I2 — and a configured positive
maximum count truncates the result to its first `m` entries. -/
theorem collector_sorted_union (files : List (List Row)) :
    StrSorted (get_all_ehrads files none)
    ∧ (get_all_ehrads files none).Nodup
    ∧ (∀ x, x ∈ get_all_ehrads files none ↔
        ∃ f ∈ files, x ∈ extract_ehrads_from_csv f)
    ∧ (∀ (f1 f2 : List Row) (x : String),
        x ∈ get_all_ehrads [f1, f2] none ↔
          x ∈ extract_ehrads_from_csv f1 ∨ x ∈ extract_ehrads_from_csv f2)
    ∧ ∀ m : Nat, 0 < m →
        get_all_ehrads files (some m)
          = (get_all_ehrads files none).take m := by
  have hnodup := nodup_foldl_union files [] List.nodup_nil
  refine ⟨?_, ?_, ?_, ?_, ?_⟩
  · simpa [get_all_ehrads] using pySorted_sorted _
  · simpa [get_all_ehrads] using nodup_pySorted hnodup
  · intro x
    simp only [get_all_ehrads]
    rw [mem_pySorted, mem_foldl_union]
    simp
  · intro f1 f2 x
    simp only [get_all_ehrads]
    rw [mem_pySorted, mem_foldl_union]
    simp
  · intro m hm
    simp only [get_all_ehrads]
    have hmne : (m != 0) = true := by simpa using Nat.pos_iff_ne_zero.mp hm
    by_cases hlen : (pySorted (files.foldl
        (fun acc f => (extract_ehrads_from_csv f).foldl pySetAdd acc)
        [])).length > m
    · rw [if_pos (by simp [hmne, hlen])]
    · rw [if_neg (by simp [hlen])]
      rw [List.take_of_length_le (Nat.le_of_not_lt hlen)]

/-- Witness for C7 at a concrete three-file collection and positive
maximum count. -/
theorem collector_sorted_union_witness :
    get_all_ehrads [[[("EHRAID", "5")]], [[("EHRAID", "3")]],
        [[("EHRAID", "5")]]] (some 2)
      = (get_all_ehrads [[[("EHRAID", "5")]], [[("EHRAID", "3")]],
        [[("EHRAID", "5")]]] none).take 2 :=
  (collector_sorted_union [[[("EHRAID", "5")]], [[("EHRAID", "3")]],
    [[("EHRAID", "5")]]]).2.2.2.2 2 (by decide)

/-- **C10**: the collector's non-emptiness check precedes trimming, so
a whitespace-only identifier cell (truthy untrimmed, empty once
stripped) contributes the empty string to the collected set. -/
theorem collector_collects_whitespace_id (rows : List Row) (row : Row)
    (v : String) (hmem : row ∈ rows)
    (hl : row.lookup "EHRAID" = some v) (hne : v ≠ "")
    (hws : pyStrip v = "") :
    "" ∈ extract_ehrads_from_csv rows := by
  rw [mem_extract_ehrads]
  exact ⟨row, hmem, v, hl, hne, hws.symm⟩

/-- Witness for C10: the single-space cell. -/
theorem collector_collects_whitespace_id_witness :
    "" ∈ extract_ehrads_from_csv [[("EHRAID", " ")]] :=
  collector_collects_whitespace_id [[("EHRAID", " ")]] [("EHRAID", " ")]
    " " (List.mem_singleton_self _) rfl (by decide) rfl

end Zefix
